import Mathlib

set_option maxHeartbeats 1000000

/-!
Shallow embedding of the `snake_runtime` crate (src/lib.rs and src/main.rs).

The VM (wasmer instance running the trusted support module) is external to
this repository and is modelled as an oracle `VMOracle`: an arbitrary
assignment of return values to the exported functions the host calls.
Machine integers: Rust `u32` values are `Nat` with explicit `% 2^32`
wrapping where the source can overflow (release-build semantics); Rust
`i32` return values crossing the VM boundary are `Int`.

Part 1 (lib.rs): the host game invoker `run_game`, instrumented with the
trace of VM calls it makes, and with Rust panics made explicit as a
`HostResult.panicked` value (a `panic!` unwinds the worker thread and, via
`join().unwrap()` in `main`, aborts the process).

Part 2 (main.rs): the tournament scheduler.  Worker critical sections are
atomic steps of a small-step interleaving relation `Step` over the shared
`State` (one mutex in the source guards the whole of `State`); a second,
finer model (`LStep`) makes the mutex ownership explicit in order to
settle the locking claims.
-/

/-! ## Machine integer helpers -/

/-- Modulus of the Rust `u32` type. -/
def u32Mod : Nat := 4294967296

/-- Wrapping `u32` addition, the release-build semantics of `+` on `u32`. -/
def u32add (a b : Nat) : Nat := (a + b) % u32Mod

/-- Rust `as u8` truncation of an `i32` value. -/
def toU8 (b : Int) : Nat := (b % 256).toNat

/-- Rust `as u32` reinterpretation of an `i32` value. -/
def u32ofI32 (t : Int) : Nat := (t % (4294967296 : Int)).toNat

/-! ## Data model (lib.rs lines 169-182) -/

/-- The `Winner` enum of lib.rs: exactly the three fair game outcomes.
The invalid-competitor winner codes 3 and 4 have no representation here;
in the source they panic before a `Winner` value is constructed. -/
inductive Winner
  | Red
  | Blue
  | Tie
  deriving DecidableEq, Repr

/-- The `GameResult` struct of lib.rs. -/
structure GameResult where
  winner : Winner
  tick : Nat
  cycle : Nat
  lose_reason : String
  deriving DecidableEq, Repr

/-! ## UTF-8 lossy decoding

Models `String::from_utf8_lossy` from the Rust standard library (called at
lib.rs line 121): standard UTF-8 validation, substituting U+FFFD for each
maximal subpart of an ill-formed subsequence.  A total function: it
produces a string for every input byte sequence. -/

/-- The U+FFFD replacement character. -/
def replChar : Char := '�'

/-- Is `b` a UTF-8 continuation byte (0x80-0xBF)? -/
def contByte (b : Nat) : Bool := 128 ≤ b && b ≤ 191

/-- Lower bound for the second byte of a three-byte sequence with lead `b`. -/
def cont2Lo (b : Nat) : Nat := if b = 224 then 160 else 128

/-- Upper bound for the second byte of a three-byte sequence with lead `b`
(lead 0xED excludes the surrogate range). -/
def cont2Hi (b : Nat) : Nat := if b = 237 then 159 else 191

/-- Lower bound for the second byte of a four-byte sequence with lead `b`. -/
def cont3Lo (b : Nat) : Nat := if b = 240 then 144 else 128

/-- Upper bound for the second byte of a four-byte sequence with lead `b`
(lead 0xF4 caps the scalar value at 0x10FFFF). -/
def cont3Hi (b : Nat) : Nat := if b = 244 then 143 else 191

/-- Lossy UTF-8 decoding of a byte sequence into characters. -/
def utf8Lossy : List Nat → List Char
  | [] => []
  | b :: rest =>
    if b < 128 then
      Char.ofNat b :: utf8Lossy rest
    else if 194 ≤ b && b ≤ 223 then
      match rest with
      | [] => [replChar]
      | b2 :: rest2 =>
        if contByte b2 then
          Char.ofNat ((b - 192) * 64 + (b2 - 128)) :: utf8Lossy rest2
        else replChar :: utf8Lossy (b2 :: rest2)
    else if 224 ≤ b && b ≤ 239 then
      match rest with
      | [] => [replChar]
      | b2 :: rest2 =>
        if cont2Lo b ≤ b2 && b2 ≤ cont2Hi b then
          match rest2 with
          | [] => [replChar]
          | b3 :: rest3 =>
            if contByte b3 then
              Char.ofNat ((b - 224) * 4096 + (b2 - 128) * 64 + (b3 - 128)) ::
                utf8Lossy rest3
            else replChar :: utf8Lossy (b3 :: rest3)
        else replChar :: utf8Lossy (b2 :: rest2)
    else if 240 ≤ b && b ≤ 244 then
      match rest with
      | [] => [replChar]
      | b2 :: rest2 =>
        if cont3Lo b ≤ b2 && b2 ≤ cont3Hi b then
          match rest2 with
          | [] => [replChar]
          | b3 :: rest3 =>
            if contByte b3 then
              match rest3 with
              | [] => [replChar]
              | b4 :: rest4 =>
                if contByte b4 then
                  Char.ofNat ((b - 240) * 262144 + (b2 - 128) * 4096 +
                      (b3 - 128) * 64 + (b4 - 128)) :: utf8Lossy rest4
                else replChar :: utf8Lossy (b4 :: rest4)
            else replChar :: utf8Lossy (b3 :: rest3)
        else replChar :: utf8Lossy (b2 :: rest2)
    else
      replChar :: utf8Lossy rest

/-! ## The VM boundary (lib.rs lines 88-166) -/

/-- Oracle for the sandboxed VM: one function per export that `run_game`
calls, mapping the integer arguments the host passes to the `i32` value
the VM returns.  The handle returned by `run` is the `result_ptr`. -/
structure VMOracle where
  run : Nat → Int
  result_get_winner : Int → Int
  result_get_ticks : Int → Int
  result_get_cycles : Int → Int
  result_get_reason_len : Int → Int
  result_get_reason_byte : Int → Int → Int

/-- One call across the VM boundary, as recorded in the host trace. -/
inductive VMCall
  | run (seed : Nat)
  | getReasonLen (h : Int)
  | getReasonByte (h : Int) (i : Int)
  | getWinner (h : Int)
  | getTicks (h : Int)
  | getCycles (h : Int)
  | drop (h : Int)
  deriving DecidableEq, Repr

/-- Outcome of a host computation that can `panic!`: panicking unwinds the
worker thread and, through `join().unwrap()`, crashes the process. -/
inductive HostResult (α : Type)
  | ok (a : α)
  | panicked (msg : String)
  deriving DecidableEq, Repr

/-- The reason bytes collected by the loop at lib.rs lines 111-120: one
`result_get_reason_byte` call per index in `0..reason_len`, each return
value truncated `as u8`. -/
def reasonBytes (vm : VMOracle) (h : Int) : List Nat :=
  (List.range (vm.result_get_reason_len h).toNat).map
    (fun i => toU8 (vm.result_get_reason_byte h (Int.ofNat i)))

/-- The trace entries for the reason-byte loop. -/
def reasonByteCalls (vm : VMOracle) (h : Int) : List VMCall :=
  (List.range (vm.result_get_reason_len h).toNat).map
    (fun i => VMCall.getReasonByte h (Int.ofNat i))

/-- `SnakeRuntime::run_game` (lib.rs lines 88-166), returning the list of
VM calls made and the outcome.  Control flow follows the source: invoke
`run`, read the reason length and bytes, read the winner code, then either
panic (codes 3 and 4 and the `unreachable!()` arm) or read ticks and
cycles, drop the result handle and return the `GameResult`. -/
def run_game (vm : VMOracle) (seed : Nat) : List VMCall × HostResult GameResult :=
  let h := vm.run seed
  let reason := String.mk (utf8Lossy (reasonBytes vm h))
  let code := vm.result_get_winner h
  let pre := VMCall.run seed :: VMCall.getReasonLen h ::
    (reasonByteCalls vm h ++ [VMCall.getWinner h])
  if code = 0 ∨ code = 1 ∨ code = 2 then
    let w := if code = 0 then Winner.Red else if code = 1 then Winner.Blue else Winner.Tie
    (pre ++ [VMCall.getTicks h, VMCall.getCycles h, VMCall.drop h],
      HostResult.ok
        { winner := w
          tick := u32ofI32 (vm.result_get_ticks h)
          cycle := u32ofI32 (vm.result_get_cycles h)
          lose_reason := reason })
  else if code = 3 then
    (pre, HostResult.panicked "RED WASM failed validation")
  else if code = 4 then
    (pre, HostResult.panicked "BLUE WASM failed validation")
  else
    (pre, HostResult.panicked "internal error: entered unreachable code")

/-! ## Trace classifiers -/

/-- Is this call a `result_drop`? -/
def isDrop : VMCall → Bool
  | VMCall.drop _ => true
  | _ => false

/-- Is this call a `run`? -/
def isRun : VMCall → Bool
  | VMCall.run _ => true
  | _ => false

/-- Is this call a `result_get_reason_len`? -/
def isReasonLen : VMCall → Bool
  | VMCall.getReasonLen _ => true
  | _ => false

/-- Is this call a `result_get_reason_byte`? -/
def isReasonByte : VMCall → Bool
  | VMCall.getReasonByte _ _ => true
  | _ => false

/-- Number of `result_drop` calls in a trace. -/
def dropCount (tr : List VMCall) : Nat := (tr.filter isDrop).length

/-- Number of `run` calls in a trace. -/
def runCount (tr : List VMCall) : Nat := (tr.filter isRun).length

/-! ## Concrete oracles used to evaluate the embedding -/

/-- Oracle whose VM reports winner code 3 (RED invalid). -/
def cvm3 : VMOracle :=
  { run := fun _ => 7
    result_get_winner := fun _ => 3
    result_get_ticks := fun _ => 0
    result_get_cycles := fun _ => 0
    result_get_reason_len := fun _ => 0
    result_get_reason_byte := fun _ _ => 0 }

/-- Oracle whose VM reports winner code 4 (BLUE invalid). -/
def cvm4 : VMOracle :=
  { run := fun _ => 7
    result_get_winner := fun _ => 4
    result_get_ticks := fun _ => 0
    result_get_cycles := fun _ => 0
    result_get_reason_len := fun _ => 0
    result_get_reason_byte := fun _ _ => 0 }

/-- Oracle whose VM reports the out-of-contract winner code 5. -/
def cvm5 : VMOracle :=
  { run := fun _ => 7
    result_get_winner := fun _ => 5
    result_get_ticks := fun _ => 0
    result_get_cycles := fun _ => 0
    result_get_reason_len := fun _ => 0
    result_get_reason_byte := fun _ _ => 0 }

/-- Oracle whose VM reports a tie after 9 ticks and 11 cycles with the
two-byte reason string "Hi". -/
def cvmOk : VMOracle :=
  { run := fun _ => 7
    result_get_winner := fun _ => 2
    result_get_ticks := fun _ => 9
    result_get_cycles := fun _ => 11
    result_get_reason_len := fun _ => 2
    result_get_reason_byte := fun _ i => if i = 0 then 72 else 105 }

/-! ## The shared tournament state (main.rs lines 43-47)

The source guards the whole `State` struct (seed cursor, win counts and
lose-reason histogram) behind one `Arc<Mutex<State>>`.  The two `HashMap`s
are modelled as total functions with the `or_insert(0)` / `or_default()`
defaults. -/

/-- The aggregate part of `State`: win counts and the per-winner histogram
of lose reasons with up to five example seeds. -/
structure Aggregate where
  wins : Winner → Nat
  lose_reasons : Winner → String → Nat × List Nat

/-- The empty aggregate: every counter at the `HashMap` default. -/
def emptyAgg : Aggregate :=
  { wins := fun _ => 0, lose_reasons := fun _ _ => (0, []) }

/-- The record critical section of the worker loop (main.rs lines
104-119): increment the winner total, then in the winner's histogram
entry for the lose reason push the seed while fewer than five examples
are stored and increment the count. -/
def record (a : Aggregate) (w : Winner) (reason : String) (seed : Nat) : Aggregate :=
  { wins := fun w2 => if w2 = w then a.wins w2 + 1 else a.wins w2
    lose_reasons := fun w2 r2 =>
      if w2 = w ∧ r2 = reason then
        ((a.lose_reasons w reason).1 + 1,
          if (a.lose_reasons w reason).2.length < 5 then
            (a.lose_reasons w reason).2 ++ [seed]
          else (a.lose_reasons w reason).2)
      else a.lose_reasons w2 r2 }

/-- One recorded game: the winner, the lose reason and the seed. -/
abbrev GRec : Type := Winner × String × Nat

/-- Folding the record step over a sequence of recorded games. -/
def recordAll (recs : List GRec) : Aggregate :=
  recs.foldl (fun a g => record a g.1 g.2.1 g.2.2) emptyAgg

/-- Sum of the win counters over the three winners, the quantity the
final `assert_eq!` of main.rs (line 146) compares to `args.games`. -/
def sumWins (a : Aggregate) : Nat :=
  a.wins Winner.Red + a.wins Winner.Blue + a.wins Winner.Tie

/-! ## The tournament scheduler (main.rs lines 84-138)

Interleaving semantics: each worker thread repeatedly runs the seed-claim
critical section (lines 93-101), plays a game, and runs the record
critical section (lines 104-119).  Mutex-protected critical sections are
atomic steps; the `claimed` and `recorded` fields are the observation
history (which seeds were claimed, which games were recorded). -/

/-- Local status of one worker thread. -/
inductive WStatus
  | idle
  | hasResult (seed : Nat) (r : GameResult)
  | done
  deriving DecidableEq, Repr

/-- Global scheduler state: the shared mutex-guarded `State` (cursor and
aggregate), the worker statuses, and the observation history. -/
structure SchedState where
  cursor : Nat
  agg : Aggregate
  workers : List WStatus
  claimed : List Nat
  recorded : List GRec

/-- The pending seed of a worker, when it has played a game that is not
yet recorded. -/
def pendingOf : WStatus → Option Nat
  | WStatus.hasResult sd _ => some sd
  | _ => none

/-- Seeds claimed but not yet recorded, across all workers. -/
def pendingSeeds (s : SchedState) : List Nat := s.workers.filterMap pendingOf

/-- Is this worker status `idle`? -/
def isIdle : WStatus → Bool
  | WStatus.idle => true
  | _ => false

/-- Number of idle workers. -/
def idleCount (s : SchedState) : Nat := (s.workers.filter isIdle).length

/-- Initial scheduler state: cursor at the starting seed, empty maps,
`n` worker threads about to enter the loop. -/
def initState (n start : Nat) : SchedState :=
  { cursor := start
    agg := emptyAgg
    workers := List.replicate n WStatus.idle
    claimed := []
    recorded := [] }

/-- Small-step interleaving relation of the worker loop.  `game` is the
per-seed outcome computed by the private VM of the claiming worker
(`runtime.run_game(seed)`, main.rs line 102); `start` is `args.seed` and
`G` is `args.games`.  The seed-claim test is the source comparison
`seed + 1 > (args.games + args.seed)` in wrapping `u32` arithmetic. -/
inductive Step (game : Nat → GameResult) (start G : Nat) : SchedState → SchedState → Prop
  | claim (s : SchedState) (i : Nat) (hi : s.workers.get? i = some WStatus.idle)
      (hc : ¬ u32add G start < u32add s.cursor 1) :
      Step game start G s
        { cursor := u32add s.cursor 1
          agg := s.agg
          workers := s.workers.set i (WStatus.hasResult s.cursor (game s.cursor))
          claimed := s.claimed ++ [s.cursor]
          recorded := s.recorded }
  | exhaust (s : SchedState) (i : Nat) (hi : s.workers.get? i = some WStatus.idle)
      (hc : u32add G start < u32add s.cursor 1) :
      Step game start G s { s with workers := s.workers.set i WStatus.done }
  | store (s : SchedState) (i : Nat) (sd : Nat) (r : GameResult)
      (hi : s.workers.get? i = some (WStatus.hasResult sd r)) :
      Step game start G s
        { cursor := s.cursor
          agg := record s.agg r.winner r.lose_reason sd
          workers := s.workers.set i WStatus.idle
          claimed := s.claimed
          recorded := s.recorded ++ [(r.winner, r.lose_reason, sd)] }

/-- States reachable by the tournament with `n` worker threads. -/
def Reachable (game : Nat → GameResult) (start G n : Nat) (s : SchedState) : Prop :=
  Relation.ReflTransGen (Step game start G) (initState n start) s

/-- All worker threads have terminated (every `join` has returned). -/
def AllDone (s : SchedState) : Prop := ∀ w ∈ s.workers, w = WStatus.done

/-- Termination measure for the scheduler: strictly decreases on every
step once the seed range cannot wrap. -/
def schedMeasure (start G : Nat) (s : SchedState) : Nat :=
  2 * (start + G - s.cursor) + 2 * (pendingSeeds s).length + idleCount s

/-- A constant game outcome used on concrete runs. -/
def cgame : Nat → GameResult :=
  fun _ => { winner := Winner.Red, tick := 0, cycle := 0, lose_reason := "" }

/-! ## The pre-spawn configuration check (main.rs lines 74-76)

The source computes `u32::checked_add(args.games, args.seed)` and, when it
overflows, prints a warning; there is no early return, so the worker
threads are spawned regardless. -/

/-- What main does before spawning workers. -/
structure PreSpawn where
  warned : Bool
  spawns : Bool

/-- Straight-line pre-spawn behaviour of `main`: warn on overflow of
`games + seed`, then fall through to the spawn loop unconditionally. -/
def preSpawn (games seed : Nat) : PreSpawn :=
  { warned := decide (u32Mod ≤ games + seed), spawns := true }

/-! ## Lock-explicit model of the worker loop (main.rs lines 92-132)

In the source a single `Arc<Mutex<State>>` (`seed_mutex`, main.rs line
62) guards both the seed cursor and the aggregate.  This finer model
makes mutex acquisition explicit: a worker is in a critical section
exactly while it owns the mutex.  The statistics bookkeeping performed
inside the critical sections is elided here; it is covered by the atomic
model above. -/

/-- Control point of one worker in the lock-explicit model. -/
inductive Phase
  | ready
  | claiming
  | playing (sd : Nat)
  | recording (sd : Nat)
  | finished
  deriving DecidableEq, Repr

/-- Lock-explicit global state: the owner of the single `seed_mutex`, the
seed cursor it guards, and each worker's control point. -/
structure LockState where
  owner : Option Nat
  cursor : Nat
  phases : Nat → Phase

/-- Lock-explicit step relation with `n` worker threads.  Entering either
critical section requires the one shared mutex to be free. -/
inductive LStep (start G n : Nat) : LockState → LockState → Prop
  | enterClaim (s : LockState) (i : Nat) (hn : i < n)
      (hi : s.phases i = Phase.ready) (ho : s.owner = none) :
      LStep start G n s
        { s with owner := some i, phases := Function.update s.phases i Phase.claiming }
  | claimSeed (s : LockState) (i : Nat) (hn : i < n)
      (hi : s.phases i = Phase.claiming) (ho : s.owner = some i)
      (hc : ¬ u32add G start < u32add s.cursor 1) :
      LStep start G n s
        { owner := none
          cursor := u32add s.cursor 1
          phases := Function.update s.phases i (Phase.playing s.cursor) }
  | claimExhausted (s : LockState) (i : Nat) (hn : i < n)
      (hi : s.phases i = Phase.claiming) (ho : s.owner = some i)
      (hc : u32add G start < u32add s.cursor 1) :
      LStep start G n s
        { s with owner := none, phases := Function.update s.phases i Phase.finished }
  | enterRecord (s : LockState) (i : Nat) (sd : Nat) (hn : i < n)
      (hi : s.phases i = Phase.playing sd) (ho : s.owner = none) :
      LStep start G n s
        { s with owner := some i, phases := Function.update s.phases i (Phase.recording sd) }
  | exitRecord (s : LockState) (i : Nat) (sd : Nat) (hn : i < n)
      (hi : s.phases i = Phase.recording sd) (ho : s.owner = some i) :
      LStep start G n s
        { s with owner := none, phases := Function.update s.phases i Phase.ready }

/-- Initial lock-explicit state. -/
def initLock (start : Nat) : LockState :=
  { owner := none, cursor := start, phases := fun _ => Phase.ready }

/-- Reachability in the lock-explicit model. -/
def ReachableL (start G n : Nat) (s : LockState) : Prop :=
  Relation.ReflTransGen (LStep start G n) (initLock start) s

/-- Worker `i` is inside a critical section (owns a lock in the source:
between `lock()` and the end of the enclosing block). -/
def InCS (s : LockState) (i : Nat) : Prop :=
  s.phases i = Phase.claiming ∨ ∃ sd, s.phases i = Phase.recording sd

/-- Modelled from the spec: the two-independent-lock design of section 5
("Two independent mutual-exclusion domains exist: the SeedCursor ... and
the AggregateState"), which is absent from the source (main.rs has the
single `seed_mutex`).  Identical to `LockState` except that the seed
cursor and the aggregate are guarded by two separate mutexes. -/
structure TwoLockState where
  seedOwner : Option Nat
  aggOwner : Option Nat
  cursor : Nat
  phases : Nat → Phase

/-- Modelled from the spec: step relation of the two-lock design.  The
claim critical section takes the SeedCursor lock, the record critical
section takes the AggregateState lock. -/
inductive SStep (start G n : Nat) : TwoLockState → TwoLockState → Prop
  | enterClaim (s : TwoLockState) (i : Nat) (hn : i < n)
      (hi : s.phases i = Phase.ready) (ho : s.seedOwner = none) :
      SStep start G n s
        { s with seedOwner := some i, phases := Function.update s.phases i Phase.claiming }
  | claimSeed (s : TwoLockState) (i : Nat) (hn : i < n)
      (hi : s.phases i = Phase.claiming) (ho : s.seedOwner = some i)
      (hc : ¬ u32add G start < u32add s.cursor 1) :
      SStep start G n s
        { s with seedOwner := none
                 cursor := u32add s.cursor 1
                 phases := Function.update s.phases i (Phase.playing s.cursor) }
  | claimExhausted (s : TwoLockState) (i : Nat) (hn : i < n)
      (hi : s.phases i = Phase.claiming) (ho : s.seedOwner = some i)
      (hc : u32add G start < u32add s.cursor 1) :
      SStep start G n s
        { s with seedOwner := none, phases := Function.update s.phases i Phase.finished }
  | enterRecord (s : TwoLockState) (i : Nat) (sd : Nat) (hn : i < n)
      (hi : s.phases i = Phase.playing sd) (ho : s.aggOwner = none) :
      SStep start G n s
        { s with aggOwner := some i, phases := Function.update s.phases i (Phase.recording sd) }
  | exitRecord (s : TwoLockState) (i : Nat) (sd : Nat) (hn : i < n)
      (hi : s.phases i = Phase.recording sd) (ho : s.aggOwner = some i) :
      SStep start G n s
        { s with aggOwner := none, phases := Function.update s.phases i Phase.ready }

/-- Modelled from the spec: initial state of the two-lock design. -/
def initTwoLock (start : Nat) : TwoLockState :=
  { seedOwner := none, aggOwner := none, cursor := start, phases := fun _ => Phase.ready }

/-- Modelled from the spec: reachability in the two-lock design. -/
def ReachableS (start G n : Nat) (s : TwoLockState) : Prop :=
  Relation.ReflTransGen (SStep start G n) (initTwoLock start) s

/-- The calls `run_game` makes between `run` and `result_drop` on the
success path: reason length, reason bytes, winner, ticks, cycles. -/
def midCalls (vm : VMOracle) (sd : Nat) : List VMCall :=
  VMCall.getReasonLen (vm.run sd) ::
    (reasonByteCalls vm (vm.run sd) ++
      [VMCall.getWinner (vm.run sd), VMCall.getTicks (vm.run sd),
        VMCall.getCycles (vm.run sd)])

/-- The `GameResult` value `run_game` returns on the success path. -/
def okResult (vm : VMOracle) (sd : Nat) : GameResult :=
  { winner :=
      if vm.result_get_winner (vm.run sd) = 0 then Winner.Red
      else if vm.result_get_winner (vm.run sd) = 1 then Winner.Blue
      else Winner.Tie
    tick := u32ofI32 (vm.result_get_ticks (vm.run sd))
    cycle := u32ofI32 (vm.result_get_cycles (vm.run sd))
    lose_reason := String.mk (utf8Lossy (reasonBytes vm (vm.run sd))) }

/-- Scheduler state with the single worker terminated, reached from
`initState 1 0` with zero games requested. -/
def doneState : SchedState :=
  { cursor := 0
    agg := emptyAgg
    workers := [WStatus.done]
    claimed := []
    recorded := [] }

/-- State reached from `initState 1 4294967294` with one game requested,
after the first game was claimed, played and recorded and a second claim
was made: the wrapped comparison admits seed 4294967295, outside the
requested range. -/
def cexC2state : SchedState :=
  { cursor := 0
    agg := record emptyAgg Winner.Red "" 4294967294
    workers := [WStatus.hasResult 4294967295 (cgame 4294967295)]
    claimed := [4294967294, 4294967295]
    recorded := [(Winner.Red, "", 4294967294)] }

/-- One store step after `cexC2state`: two games recorded although only
one was requested. -/
def cexC1state : SchedState :=
  { cursor := 0
    agg := record (record emptyAgg Winner.Red "" 4294967294) Winner.Red "" 4294967295
    workers := [WStatus.idle]
    claimed := [4294967294, 4294967295]
    recorded := [(Winner.Red, "", 4294967294), (Winner.Red, "", 4294967295)] }

/-- Fully terminated run started at seed 4294967295 with two games
requested (an overflowing configuration): both games execute, with
wrapped seed values 4294967295 and 0. -/
def cexC5state : SchedState :=
  { cursor := 1
    agg := record (record emptyAgg Winner.Red "" 4294967295) Winner.Red "" 0
    workers := [WStatus.done]
    claimed := [4294967295, 0]
    recorded := [(Winner.Red, "", 4294967295), (Winner.Red, "", 0)] }

/-- The recorded games that hit the histogram bucket of winner `w` and
reason `re`. -/
def occurrences (w : Winner) (re : String) (recs : List GRec) : List GRec :=
  recs.filter (fun g => decide (w = g.1 ∧ re = g.2.1))

/-- The seeds of a list of recorded games. -/
def seedsOf (recs : List GRec) : List Nat := recs.map (fun g => g.2.2)

/-- Lock-explicit state after worker 0 entered the seed-claim critical
section from the initial state. -/
def lockCS0 : LockState :=
  { owner := some 0
    cursor := 0
    phases := Function.update (initLock 0).phases 0 Phase.claiming }

/-- Lock-explicit state after worker 0 claimed seed 0 and released the
mutex: it is playing the game, holding no lock. -/
def lockPlay0 : LockState :=
  { owner := none
    cursor := u32add 0 1
    phases := Function.update (Function.update (initLock 0).phases 0 Phase.claiming) 0
      (Phase.playing 0) }

/-- Inductive invariant of the scheduler, for a run configured with
starting seed `start`, game count `G` and `n` workers whose seed range
cannot wrap: the cursor stays inside `[start, start + G]`, the claimed
seeds are exactly the consecutive range below the cursor, every claimed
seed is pending in exactly one worker or recorded exactly once, the
aggregate is the fold of the record step over the recorded games, and a
terminated worker certifies that the range is exhausted. -/
structure SchedInv (start G n : Nat) (s : SchedState) : Prop where
  wlen : s.workers.length = n
  lb : start ≤ s.cursor
  ub : s.cursor ≤ start + G
  claimed_eq : s.claimed = List.range' start (s.cursor - start)
  perm : s.claimed.Perm ((s.recorded.map fun g => g.2.2) ++ pendingSeeds s)
  agg_eq : s.agg = recordAll s.recorded
  done_max : (∃ w ∈ s.workers, w = WStatus.done) → s.cursor = start + G

/-! # Theorems -/

/-! ## Arithmetic helpers -/

theorem u32add_eq_of_lt {a b : Nat} (h : a + b < u32Mod) : u32add a b = a + b :=
  Nat.mod_eq_of_lt h

theorem toU8_lt (b : Int) : toU8 b < 256 := by
  have h256 : (0 : Int) < 256 := by norm_num
  have h1 : b % 256 < 256 := Int.emod_lt_of_pos b h256
  have h0 : 0 ≤ b % 256 := Int.emod_nonneg b (by norm_num)
  unfold toU8
  omega

/-! ## Trace helpers -/

theorem filter_reasonByteCalls (vm : VMOracle) (h : Int) (p : VMCall → Bool)
    (hp : ∀ hh i, p (VMCall.getReasonByte hh i) = false) :
    (reasonByteCalls vm h).filter p = [] := by
  rw [List.filter_eq_nil_iff]
  intro a ha
  simp only [reasonByteCalls, List.mem_map, List.mem_range] at ha
  obtain ⟨i, _, rfl⟩ := ha
  simp [hp]

theorem mem_reasonByteCalls {vm : VMOracle} {h : Int} {c : VMCall}
    (hc : c ∈ reasonByteCalls vm h) : ∃ i, c = VMCall.getReasonByte h i := by
  simp only [reasonByteCalls, List.mem_map, List.mem_range] at hc
  obtain ⟨i, _, rfl⟩ := hc
  exact ⟨Int.ofNat i, rfl⟩

theorem run_game_fst (vm : VMOracle) (sd : Nat) :
    (run_game vm sd).1 =
      if vm.result_get_winner (vm.run sd) = 0 ∨ vm.result_get_winner (vm.run sd) = 1 ∨
          vm.result_get_winner (vm.run sd) = 2 then
        VMCall.run sd :: (midCalls vm sd ++ [VMCall.drop (vm.run sd)])
      else
        VMCall.run sd :: VMCall.getReasonLen (vm.run sd) ::
          (reasonByteCalls vm (vm.run sd) ++ [VMCall.getWinner (vm.run sd)]) := by
  unfold run_game midCalls
  split_ifs with hok <;> simp [hok, List.append_assoc, apply_ite Prod.fst]

theorem run_game_snd (vm : VMOracle) (sd : Nat) :
    (run_game vm sd).2 =
      if vm.result_get_winner (vm.run sd) = 0 ∨ vm.result_get_winner (vm.run sd) = 1 ∨
          vm.result_get_winner (vm.run sd) = 2 then
        HostResult.ok (okResult vm sd)
      else if vm.result_get_winner (vm.run sd) = 3 then
        HostResult.panicked "RED WASM failed validation"
      else if vm.result_get_winner (vm.run sd) = 4 then
        HostResult.panicked "BLUE WASM failed validation"
      else
        HostResult.panicked "internal error: entered unreachable code" := by
  unfold run_game okResult
  split_ifs with hok <;> simp [hok, apply_ite Prod.snd] <;> simp_all

theorem filter_midCalls (vm : VMOracle) (sd : Nat) (p : VMCall → Bool)
    (h1 : ∀ h, p (VMCall.getReasonLen h) = false)
    (h2 : ∀ h i, p (VMCall.getReasonByte h i) = false)
    (h3 : ∀ h, p (VMCall.getWinner h) = false)
    (h4 : ∀ h, p (VMCall.getTicks h) = false)
    (h5 : ∀ h, p (VMCall.getCycles h) = false) :
    (midCalls vm sd).filter p = [] := by
  simp [midCalls, List.filter_append, List.filter_cons, h1, h3, h4, h5,
    filter_reasonByteCalls vm (vm.run sd) p h2]

/-! ## C3: how invalid-competitor winner codes are surfaced

The source does not return a typed `Result`: the match arms for winner
codes 3 and 4 (lib.rs lines 134-139) execute `panic!`, crashing the
worker and, through `join().unwrap()`, the process. -/

/-- C3 (counterexample to the claim as stated): on a VM reporting winner
code 3, `run_game` does not produce a recoverable error value for the
caller: it panics the process with the message "RED WASM failed
validation".  There is no `Result<GameResult, InvalidCompetitor>` return
in the source. -/
theorem C3_counterexample :
    (run_game cvm3 0).2 = HostResult.panicked "RED WASM failed validation" := by
  decide

/-- C3 (amended): when the winner code read from the VM is 3 or 4,
`run_game` panics with a message identifying which side failed ("RED
WASM failed validation" or "BLUE WASM failed validation"); the process
crashes rather than returning a typed recoverable error. -/
theorem C3_invalid_competitor_panics (vm : VMOracle) (sd : Nat) :
    (vm.result_get_winner (vm.run sd) = 3 →
      (run_game vm sd).2 = HostResult.panicked "RED WASM failed validation") ∧
    (vm.result_get_winner (vm.run sd) = 4 →
      (run_game vm sd).2 = HostResult.panicked "BLUE WASM failed validation") := by
  rw [run_game_snd]
  constructor <;> intro h <;> simp [h]

/-- C3 witness: the amended theorem evaluated on the concrete oracle
whose VM reports winner code 4. -/
theorem C3_witness :
    cvm4.result_get_winner (cvm4.run 0) = 4 ∧
    (run_game cvm4 0).2 = HostResult.panicked "BLUE WASM failed validation" :=
  ⟨rfl, (C3_invalid_competitor_panics cvm4 0).2 rfl⟩

/-! ## C4: handle lifecycle per game

On the success path the source trace is run, reads, exactly one
`result_drop` at the end.  On the panic paths (winner codes 3, 4, and
unknown codes) the `panic!` fires before `result_drop` (lib.rs lines
130-141 precede line 156), so no release happens: the claim's
"released unconditionally" does not hold. -/

/-- C4 (counterexample to the claim as stated): on a VM reporting winner
code 3, the per-game call sequence contains no `result_drop` at all: the
panic fires before the handle is released. -/
theorem C4_counterexample :
    dropCount (run_game cvm3 0).1 = 0 ∧
    (run_game cvm3 0).2 = HostResult.panicked "RED WASM failed validation" := by
  constructor <;> decide

/-- C4 (amended): every invocation of `run_game` makes exactly one `run`
call and at most one `result_drop`.  For winner codes 0, 1 and 2 the
trace is exactly one `run`, then field reads, then exactly one
`result_drop` on the returned handle, with no read after the release and
no double release.  For any other winner code (3, 4 or out of contract)
the host panics before releasing, and the trace contains no
`result_drop`. -/
theorem C4_handle_release (vm : VMOracle) (sd : Nat) :
    runCount (run_game vm sd).1 = 1 ∧
    dropCount (run_game vm sd).1 ≤ 1 ∧
    ((vm.result_get_winner (vm.run sd) = 0 ∨ vm.result_get_winner (vm.run sd) = 1 ∨
        vm.result_get_winner (vm.run sd) = 2) →
      (run_game vm sd).1 = VMCall.run sd :: (midCalls vm sd ++ [VMCall.drop (vm.run sd)]) ∧
      dropCount (run_game vm sd).1 = 1 ∧
      ∀ c ∈ midCalls vm sd, isDrop c = false ∧ isRun c = false) ∧
    (¬ (vm.result_get_winner (vm.run sd) = 0 ∨ vm.result_get_winner (vm.run sd) = 1 ∨
        vm.result_get_winner (vm.run sd) = 2) →
      dropCount (run_game vm sd).1 = 0) := by
  have hmid_drop : (midCalls vm sd).filter isDrop = [] :=
    filter_midCalls vm sd isDrop (fun _ => rfl) (fun _ _ => rfl) (fun _ => rfl)
      (fun _ => rfl) (fun _ => rfl)
  have hmid_run : (midCalls vm sd).filter isRun = [] :=
    filter_midCalls vm sd isRun (fun _ => rfl) (fun _ _ => rfl) (fun _ => rfl)
      (fun _ => rfl) (fun _ => rfl)
  have hbyte_drop := filter_reasonByteCalls vm (vm.run sd) isDrop (fun _ _ => rfl)
  have hmem : ∀ c ∈ midCalls vm sd, isDrop c = false ∧ isRun c = false := by
    intro c hc
    simp only [midCalls, List.mem_cons, List.mem_append] at hc
    rcases hc with rfl | hc
    · exact ⟨rfl, rfl⟩
    rcases hc with hc | hc
    · obtain ⟨i, rfl⟩ := mem_reasonByteCalls hc
      exact ⟨rfl, rfl⟩
    rcases hc with rfl | hc
    · exact ⟨rfl, rfl⟩
    rcases hc with rfl | hc
    · exact ⟨rfl, rfl⟩
    rcases hc with rfl | hc
    · exact ⟨rfl, rfl⟩
    · simp at hc
  rw [run_game_fst]
  by_cases hok : vm.result_get_winner (vm.run sd) = 0 ∨
      vm.result_get_winner (vm.run sd) = 1 ∨ vm.result_get_winner (vm.run sd) = 2
  · rw [if_pos hok]
    refine ⟨?_, ?_, fun _ => ⟨rfl, ?_, hmem⟩, fun hc => absurd hok hc⟩
    · simp [runCount, List.filter_cons, List.filter_append, isRun, isDrop, hmid_run]
    · simp [dropCount, List.filter_cons, List.filter_append, isDrop, hmid_drop]
    · simp [dropCount, List.filter_cons, List.filter_append, isDrop, hmid_drop]
  · rw [if_neg hok]
    refine ⟨?_, ?_, fun hc => absurd hc hok, fun _ => ?_⟩
    · simp [runCount, List.filter_cons, List.filter_append, isRun, isDrop,
        filter_reasonByteCalls vm (vm.run sd) isRun (fun _ _ => rfl)]
    · simp [dropCount, List.filter_cons, List.filter_append, isDrop, hbyte_drop]
    · simp [dropCount, List.filter_cons, List.filter_append, isDrop, hbyte_drop]

/-- C4 witness: the amended theorem evaluated on the concrete tie oracle:
one `run`, the trace form with the single final `result_drop`. -/
theorem C4_witness :
    (cvmOk.result_get_winner (cvmOk.run 0) = 0 ∨ cvmOk.result_get_winner (cvmOk.run 0) = 1 ∨
      cvmOk.result_get_winner (cvmOk.run 0) = 2) ∧
    runCount (run_game cvmOk 0).1 = 1 ∧
    (run_game cvmOk 0).1 = VMCall.run 0 :: (midCalls cvmOk 0 ++ [VMCall.drop (cvmOk.run 0)]) ∧
    dropCount (run_game cvmOk 0).1 = 1 :=
  ⟨Or.inr (Or.inr rfl), (C4_handle_release cvmOk 0).1,
    ((C4_handle_release cvmOk 0).2.2.1 (Or.inr (Or.inr rfl))).1,
    ((C4_handle_release cvmOk 0).2.2.1 (Or.inr (Or.inr rfl))).2.1⟩

/-! ## C7: invalid-competitor outcomes and the statistics -/

/-- C7: a winner code of 3 or 4 never produces a `GameResult`, so no such
game can reach the record step; conversely a produced `GameResult` comes
from a winner code in 0, 1, 2; and the `Winner` type offers exactly the
three fair outcomes (every aggregate key is one of them). -/
theorem C7_invalid_not_counted :
    (∀ (vm : VMOracle) (sd : Nat) (tr : List VMCall) (r : GameResult),
        (vm.result_get_winner (vm.run sd) = 3 ∨ vm.result_get_winner (vm.run sd) = 4) →
        run_game vm sd ≠ (tr, HostResult.ok r)) ∧
    (∀ (vm : VMOracle) (sd : Nat) (tr : List VMCall) (r : GameResult),
        run_game vm sd = (tr, HostResult.ok r) →
        vm.result_get_winner (vm.run sd) = 0 ∨ vm.result_get_winner (vm.run sd) = 1 ∨
          vm.result_get_winner (vm.run sd) = 2) ∧
    (∀ w : Winner, w = Winner.Red ∨ w = Winner.Blue ∨ w = Winner.Tie) := by
  refine ⟨?_, ?_, ?_⟩
  · intro vm sd tr r h heq
    have h2 : (run_game vm sd).2 = HostResult.ok r := by rw [heq]
    rw [run_game_snd] at h2
    rcases h with h | h <;> simp [h] at h2
  · intro vm sd tr r heq
    by_contra hbad
    have h2 : (run_game vm sd).2 = HostResult.ok r := by rw [heq]
    rw [run_game_snd] at h2
    rw [if_neg hbad] at h2
    split_ifs at h2
  · intro w
    cases w
    · exact Or.inl rfl
    · exact Or.inr (Or.inl rfl)
    · exact Or.inr (Or.inr rfl)

/-- C7 witness: the theorem evaluated on the concrete oracle with winner
code 3 and an arbitrary concrete pair it cannot equal. -/
theorem C7_witness :
    (cvm3.result_get_winner (cvm3.run 0) = 3 ∨ cvm3.result_get_winner (cvm3.run 0) = 4) ∧
    run_game cvm3 0 ≠ ([VMCall.run 0, VMCall.getReasonLen 7, VMCall.getWinner 7],
      HostResult.ok (cgame 0)) :=
  ⟨Or.inl rfl,
    C7_invalid_not_counted.1 cvm3 0 [VMCall.run 0, VMCall.getReasonLen 7, VMCall.getWinner 7]
      (cgame 0) (Or.inl rfl)⟩

/-! ## C8: lose-reason reconstruction -/

/-- C8: `run_game` issues exactly one `result_get_reason_len` call, and
exactly one `result_get_reason_byte` call per index in `0..len` (in
order); when a `GameResult` is produced, its `lose_reason` is the lossy
UTF-8 decoding of the collected bytes.  `utf8Lossy` is a total function,
so the decoding step never fails. -/
theorem C8_reason_reconstruction (vm : VMOracle) (sd : Nat) :
    (run_game vm sd).1.filter isReasonLen = [VMCall.getReasonLen (vm.run sd)] ∧
    (run_game vm sd).1.filter isReasonByte = reasonByteCalls vm (vm.run sd) ∧
    reasonByteCalls vm (vm.run sd) =
      (List.range (vm.result_get_reason_len (vm.run sd)).toNat).map
        (fun i => VMCall.getReasonByte (vm.run sd) (Int.ofNat i)) ∧
    (∀ (tr : List VMCall) (r : GameResult), run_game vm sd = (tr, HostResult.ok r) →
      r.lose_reason = String.mk (utf8Lossy (reasonBytes vm (vm.run sd)))) := by
  have hbyte_len := filter_reasonByteCalls vm (vm.run sd) isReasonLen (fun _ _ => rfl)
  have hbyte_self : (reasonByteCalls vm (vm.run sd)).filter isReasonByte =
      reasonByteCalls vm (vm.run sd) := by
    rw [List.filter_eq_self]
    intro c hc
    obtain ⟨i, rfl⟩ := mem_reasonByteCalls hc
    rfl
  refine ⟨?_, ?_, rfl, ?_⟩
  · rw [run_game_fst]
    split_ifs with hok
    · simp [midCalls, List.filter_cons, List.filter_append, isReasonLen, hbyte_len]
    · simp [List.filter_cons, List.filter_append, isReasonLen, hbyte_len]
  · rw [run_game_fst]
    split_ifs with hok
    · simp [midCalls, List.filter_cons, List.filter_append, isReasonByte, hbyte_self]
    · simp [List.filter_cons, List.filter_append, isReasonByte, hbyte_self]
  · intro tr r heq
    have h2 : (run_game vm sd).2 = HostResult.ok r := by rw [heq]
    rw [run_game_snd] at h2
    split_ifs at h2 with hok
    · rw [show HostResult.ok (okResult vm sd) = HostResult.ok r ↔ okResult vm sd = r
        from by constructor <;> intro hh <;> simp_all] at h2
      rw [← h2]
      rfl

/-- C8 witness: the theorem evaluated on the concrete tie oracle whose
VM reports a two-byte reason, decoding to "Hi". -/
theorem C8_witness :
    (run_game cvmOk 0).2 = HostResult.ok
      { winner := Winner.Tie, tick := 9, cycle := 11, lose_reason := "Hi" } ∧
    "Hi" = String.mk (utf8Lossy (reasonBytes cvmOk (cvmOk.run 0))) :=
  ⟨by decide,
    (C8_reason_reconstruction cvmOk 0).2.2.2 (run_game cvmOk 0).1
      { winner := Winner.Tie, tick := 9, cycle := 11, lose_reason := "Hi" } (by decide)⟩

/-! ## C10: the winner-code contract and the unreachable arm -/

/-- C10: `run_game` hits the `unreachable!()` arm (modelled as the panic
with message "internal error: entered unreachable code") exactly when the
winner code returned by the VM lies outside the contract set 0-4. -/
theorem C10_unreachable_guard (vm : VMOracle) (sd : Nat) :
    (run_game vm sd).2 = HostResult.panicked "internal error: entered unreachable code" ↔
      ¬ (vm.result_get_winner (vm.run sd) = 0 ∨ vm.result_get_winner (vm.run sd) = 1 ∨
          vm.result_get_winner (vm.run sd) = 2 ∨ vm.result_get_winner (vm.run sd) = 3 ∨
          vm.result_get_winner (vm.run sd) = 4) := by
  rw [run_game_snd]
  constructor
  · intro he hmem
    rcases hmem with h | h | h | h | h <;> simp [h] at he
  · intro hn
    push_neg at hn
    obtain ⟨h0, h1, h2, h3, h4⟩ := hn
    simp [h0, h1, h2, h3, h4]

/-- C10 witness: the guard evaluated on the concrete oracle whose VM
reports the out-of-contract winner code 5. -/
theorem C10_witness :
    ¬ (cvm5.result_get_winner (cvm5.run 0) = 0 ∨ cvm5.result_get_winner (cvm5.run 0) = 1 ∨
        cvm5.result_get_winner (cvm5.run 0) = 2 ∨ cvm5.result_get_winner (cvm5.run 0) = 3 ∨
        cvm5.result_get_winner (cvm5.run 0) = 4) ∧
    (run_game cvm5 0).2 = HostResult.panicked "internal error: entered unreachable code" :=
  ⟨by decide, (C10_unreachable_guard cvm5 0).mpr (by decide)⟩

/-! ## The record step and the reason histogram -/

theorem recordAll_concat (recs : List GRec) (g : GRec) :
    recordAll (recs ++ [g]) = record (recordAll recs) g.1 g.2.1 g.2.2 := by
  simp [recordAll, List.foldl_append]

theorem sumWins_record (a : Aggregate) (w : Winner) (reason : String) (sd : Nat) :
    sumWins (record a w reason sd) = sumWins a + 1 := by
  cases w <;> simp [sumWins, record] <;> omega

theorem sumWins_recordAll (recs : List GRec) : sumWins (recordAll recs) = recs.length := by
  induction recs using List.reverseRecOn with
  | nil => simp [recordAll, sumWins, emptyAgg]
  | append_singleton t g ih =>
    rw [recordAll_concat, sumWins_record, ih]
    simp

theorem recordAll_bucket (w : Winner) (re : String) (recs : List GRec) :
    (recordAll recs).lose_reasons w re =
      ((occurrences w re recs).length, (seedsOf (occurrences w re recs)).take 5) := by
  induction recs using List.reverseRecOn with
  | nil => simp [recordAll, emptyAgg, occurrences, seedsOf]
  | append_singleton t g ih =>
    rw [recordAll_concat]
    by_cases hk : w = g.1 ∧ re = g.2.1
    · obtain ⟨hw, hr⟩ := hk
      have hocc : occurrences w re (t ++ [g]) = occurrences w re t ++ [g] := by
        simp [occurrences, List.filter_append, List.filter_cons, hw, hr]
      have hbucket : (record (recordAll t) g.1 g.2.1 g.2.2).lose_reasons w re =
          (((recordAll t).lose_reasons g.1 g.2.1).1 + 1,
            if ((recordAll t).lose_reasons g.1 g.2.1).2.length < 5 then
              ((recordAll t).lose_reasons g.1 g.2.1).2 ++ [g.2.2]
            else ((recordAll t).lose_reasons g.1 g.2.1).2) := by
        simp [record, hw, hr]
      rw [hbucket, ← hw, ← hr, ih, hocc]
      simp only [seedsOf, List.map_append, List.map_cons, List.map_nil, List.length_take,
        Prod.mk.injEq]
      refine ⟨by simp, ?_⟩
      by_cases h5 : ((occurrences w re t).map (fun g => g.2.2)).length < 5
      · have htake : List.take
            (5 - ((occurrences w re t).map (fun g => g.2.2)).length) [g.2.2] = [g.2.2] :=
          List.take_of_length_le (by simp only [List.length_cons, List.length_nil]; omega)
        rw [if_pos (by omega), List.take_append_eq_append_take,
          List.take_of_length_le (le_of_lt h5), htake]
      · rw [if_neg (by omega), List.take_append_of_le_length (by omega)]
    · have hocc : occurrences w re (t ++ [g]) = occurrences w re t := by
        simp [occurrences, List.filter_append, List.filter_cons, hk]
      have hbucket : (record (recordAll t) g.1 g.2.1 g.2.2).lose_reasons w re =
          (recordAll t).lose_reasons w re := by
        simp [record, hk]
      rw [hbucket, ih, hocc]

theorem recordAll_bucket_nodup (w : Winner) (re : String) (recs : List GRec)
    (hnd : (recs.map (fun g => g.2.2)).Nodup) :
    ((recordAll recs).lose_reasons w re).2.Nodup := by
  rw [recordAll_bucket]
  have hsub : (seedsOf (occurrences w re recs)).Sublist (recs.map fun g => g.2.2) :=
    List.Sublist.map _ (List.filter_sublist recs)
  exact List.Nodup.sublist ((List.take_sublist 5 _).trans hsub) hnd

theorem sorted_lt_of_nodup (l : List Nat) (hnd : l.Nodup) :
    List.Sorted (fun a b => a < b)
      (List.insertionSort (fun a b => a ≤ b) l) := by
  have hs : List.Sorted (fun a b : Nat => a ≤ b) (List.insertionSort (fun a b => a ≤ b) l) :=
    List.sorted_insertionSort (fun a b => a ≤ b) l
  have hperm := List.perm_insertionSort (fun a b : Nat => a ≤ b) l
  have hnd2 : (List.insertionSort (fun a b : Nat => a ≤ b) l).Nodup :=
    hperm.nodup_iff.mpr hnd
  exact List.Pairwise.imp (fun h => lt_of_le_of_ne h.1 h.2) (List.Pairwise.and hs hnd2)

/-! ## C6: histogram insertion policy -/

/-- C6: for every sequence of recorded games and every bucket, the count
is the number of occurrences of that (winner, reason) key and the
example list holds exactly the first five seeds recorded under the key
(first occurrence initializes count 1 and list `[seed]`; later
occurrences increment the count and append only below length 5, with no
replacement).  Hence the list length never exceeds 5 and, as the
scheduler records each seed at most once (distinct seeds hypothesis),
the sorted example list is strictly increasing with no duplicates. -/
theorem C6_histogram (recs : List GRec) (w : Winner) (re : String) :
    ((recordAll recs).lose_reasons w re).1 = (occurrences w re recs).length ∧
    ((recordAll recs).lose_reasons w re).2 = (seedsOf (occurrences w re recs)).take 5 ∧
    ((recordAll recs).lose_reasons w re).2.length ≤ 5 ∧
    ((recs.map fun g => g.2.2).Nodup →
      ((recordAll recs).lose_reasons w re).2.Nodup ∧
      List.Sorted (fun a b => a < b)
        (List.insertionSort (fun a b => a ≤ b) ((recordAll recs).lose_reasons w re).2)) := by
  refine ⟨?_, ?_, ?_, fun hnd => ?_⟩
  · rw [recordAll_bucket]
  · rw [recordAll_bucket]
  · rw [recordAll_bucket]
    simp [List.length_take]
  · have hnodup := recordAll_bucket_nodup w re recs hnd
    exact ⟨hnodup, sorted_lt_of_nodup _ hnodup⟩

/-- C6 witness: the histogram evaluated on a concrete record sequence
with distinct seeds: the RED "wall" bucket gets count 2, examples
`[3, 1]`, whose sorted form `[1, 3]` is strictly increasing. -/
theorem C6_witness :
    (([(Winner.Red, "wall", 3), (Winner.Red, "wall", 1), (Winner.Blue, "head", 2)] :
        List GRec).map (fun g => g.2.2)).Nodup ∧
    ((recordAll [(Winner.Red, "wall", 3), (Winner.Red, "wall", 1),
        (Winner.Blue, "head", 2)]).lose_reasons Winner.Red "wall").2.Nodup ∧
    List.Sorted (fun a b => a < b) (List.insertionSort (fun a b => a ≤ b)
      ((recordAll [(Winner.Red, "wall", 3), (Winner.Red, "wall", 1),
        (Winner.Blue, "head", 2)]).lose_reasons Winner.Red "wall").2) :=
  ⟨by decide,
    ((C6_histogram [(Winner.Red, "wall", 3), (Winner.Red, "wall", 1), (Winner.Blue, "head", 2)]
      Winner.Red "wall").2.2.2 (by decide)).1,
    ((C6_histogram [(Winner.Red, "wall", 3), (Winner.Red, "wall", 1), (Winner.Blue, "head", 2)]
      Winner.Red "wall").2.2.2 (by decide)).2⟩

/-! ## Scheduler invariant -/

theorem set_decomp {α : Type} :
    ∀ (ws : List α) (i : Nat) (a : α), ws.get? i = some a →
      ∃ l r, ws = l ++ a :: r ∧ l.length = i ∧ ∀ b, ws.set i b = l ++ b :: r := by
  intro ws
  induction ws with
  | nil => intro i a h; simp at h
  | cons x t ih =>
    intro i a h
    cases i with
    | zero =>
      obtain rfl : x = a := by simpa using h
      exact ⟨[], t, rfl, rfl, fun b => rfl⟩
    | succ j =>
      obtain ⟨l, r, h1, h2, h3⟩ := ih j a (by simpa using h)
      refine ⟨x :: l, r, by simp [h1], by simp [h2], fun b => ?_⟩
      simp [List.set_cons_succ, h3 b]

theorem pending_replicate (n : Nat) :
    (List.replicate n WStatus.idle).filterMap pendingOf = [] := by
  induction n with
  | zero => rfl
  | succ m ih => simp [List.replicate, List.filterMap_cons, pendingOf, ih]

theorem inv_init (start G n : Nat) : SchedInv start G n (initState n start) := by
  constructor
  · exact List.length_replicate n WStatus.idle
  · exact le_refl start
  · exact Nat.le_add_right start G
  · simp [initState]
  · simp [initState, pendingSeeds, pending_replicate]
  · rfl
  · rintro ⟨w, hw, rfl⟩
    exact absurd (List.eq_of_mem_replicate hw) (by simp)

theorem inv_step {game : Nat → GameResult} {start G n : Nat} {s t : SchedState}
    (hpre : start + G + 1 < u32Mod) (hInv : SchedInv start G n s)
    (hstep : Step game start G s t) : SchedInv start G n t := by
  have hGS : u32add G start = G + start := u32add_eq_of_lt (by omega)
  have hc1 : u32add s.cursor 1 = s.cursor + 1 :=
    u32add_eq_of_lt (by have := hInv.ub; omega)
  cases hstep with
  | claim i hi hc =>
    obtain ⟨l, r, hws, hlen, hset⟩ := set_decomp s.workers i WStatus.idle hi
    rw [hGS, hc1] at hc
    have hcur : s.cursor < start + G := by omega
    have hpend_s : pendingSeeds s = l.filterMap pendingOf ++ r.filterMap pendingOf := by
      simp [pendingSeeds, hws, List.filterMap_append, List.filterMap_cons, pendingOf]
    constructor
    · simp [List.length_set, hInv.wlen]
    · show start ≤ u32add s.cursor 1
      rw [hc1]
      have := hInv.lb
      omega
    · show u32add s.cursor 1 ≤ start + G
      rw [hc1]
      omega
    · show s.claimed ++ [s.cursor] = List.range' start (u32add s.cursor 1 - start)
      rw [hc1, hInv.claimed_eq]
      have hsub : s.cursor + 1 - start = (s.cursor - start) + 1 := by
        have := hInv.lb; omega
      rw [hsub, List.range'_concat]
      have harg : start + 1 * (s.cursor - start) = s.cursor := by
        have := hInv.lb; omega
      rw [harg]
    · have hpend_t : pendingSeeds
          { cursor := u32add s.cursor 1
            agg := s.agg
            workers := s.workers.set i (WStatus.hasResult s.cursor (game s.cursor))
            claimed := s.claimed ++ [s.cursor]
            recorded := s.recorded } =
          l.filterMap pendingOf ++ s.cursor :: r.filterMap pendingOf := by
        simp [pendingSeeds, hset, List.filterMap_append, List.filterMap_cons, pendingOf]
      rw [hpend_t]
      refine List.Perm.trans (List.perm_append_singleton s.cursor s.claimed) ?_
      refine List.Perm.trans (List.Perm.cons s.cursor (hpend_s ▸ hInv.perm)) ?_
      refine List.Perm.trans List.perm_middle.symm ?_
      exact List.Perm.append_left _ List.perm_middle.symm
    · exact hInv.agg_eq
    · rintro ⟨w, hwmem, rfl⟩
      rw [hset] at hwmem
      simp only [List.mem_append, List.mem_cons] at hwmem
      exfalso
      have hdone : s.cursor = start + G := by
        refine hInv.done_max ⟨WStatus.done, ?_, rfl⟩
        rw [hws]
        simp only [List.mem_append, List.mem_cons]
        rcases hwmem with h | h | h
        · exact Or.inl h
        · exact absurd h (by simp)
        · exact Or.inr (Or.inr h)
      omega
  | exhaust i hi hc =>
    obtain ⟨l, r, hws, hlen, hset⟩ := set_decomp s.workers i WStatus.idle hi
    rw [hGS, hc1] at hc
    have hcur : s.cursor = start + G := by have := hInv.ub; omega
    constructor
    · simp [List.length_set, hInv.wlen]
    · exact hInv.lb
    · exact hInv.ub
    · exact hInv.claimed_eq
    · have hpend : pendingSeeds { s with workers := s.workers.set i WStatus.done } =
          pendingSeeds s := by
        show (s.workers.set i WStatus.done).filterMap pendingOf =
          s.workers.filterMap pendingOf
        rw [hset WStatus.done, hws]
        simp [List.filterMap_append, List.filterMap_cons, pendingOf]
      exact hpend ▸ hInv.perm
    · exact hInv.agg_eq
    · intro _
      exact hcur
  | store i sd rr hi =>
    obtain ⟨l, r, hws, hlen, hset⟩ := set_decomp s.workers i (WStatus.hasResult sd rr) hi
    have hpend_s : pendingSeeds s =
        l.filterMap pendingOf ++ sd :: r.filterMap pendingOf := by
      simp [pendingSeeds, hws, List.filterMap_append, List.filterMap_cons, pendingOf]
    constructor
    · simp [List.length_set, hInv.wlen]
    · exact hInv.lb
    · exact hInv.ub
    · exact hInv.claimed_eq
    · have hpend_t : pendingSeeds
          { cursor := s.cursor
            agg := record s.agg rr.winner rr.lose_reason sd
            workers := s.workers.set i WStatus.idle
            claimed := s.claimed
            recorded := s.recorded ++ [(rr.winner, rr.lose_reason, sd)] } =
          l.filterMap pendingOf ++ r.filterMap pendingOf := by
        simp [pendingSeeds, hset, List.filterMap_append, List.filterMap_cons, pendingOf]
      rw [hpend_t, List.map_append]
      refine List.Perm.trans (hpend_s ▸ hInv.perm) ?_
      rw [List.append_assoc]
      simp only [List.map_cons, List.map_nil, List.singleton_append]
      exact List.Perm.append_left _ List.perm_middle
    · rw [recordAll_concat]
      rw [hInv.agg_eq]
    · rintro ⟨w, hwmem, rfl⟩
      rw [hset] at hwmem
      simp only [List.mem_append, List.mem_cons] at hwmem
      refine hInv.done_max ⟨WStatus.done, ?_, rfl⟩
      rw [hws]
      simp only [List.mem_append, List.mem_cons]
      rcases hwmem with h | h | h
      · exact Or.inl h
      · exact absurd h (by simp)
      · exact Or.inr (Or.inr h)

theorem reachable_inv (game : Nat → GameResult) (start G n : Nat)
    (hpre : start + G + 1 < u32Mod) (s : SchedState)
    (h : Reachable game start G n s) : SchedInv start G n s := by
  induction h with
  | refl => exact inv_init start G n
  | tail hab hbc ih => exact inv_step hpre ih hbc

/-! ## Progress, termination and the main scheduler theorems -/

theorem step_exists {game : Nat → GameResult} {start G : Nat} {s : SchedState}
    (hnd : ¬ AllDone s) : ∃ t, Step game start G s t := by
  rw [AllDone] at hnd
  push_neg at hnd
  obtain ⟨w, hwmem, hwne⟩ := hnd
  obtain ⟨i, hi⟩ := List.mem_iff_get?.mp hwmem
  cases w with
  | idle =>
    by_cases hcc : u32add G start < u32add s.cursor 1
    · exact ⟨_, Step.exhaust s i hi hcc⟩
    · exact ⟨_, Step.claim s i hi hcc⟩
  | hasResult sd r => exact ⟨_, Step.store s i sd r hi⟩
  | done => exact absurd rfl hwne

theorem no_step_of_allDone {game : Nat → GameResult} {start G : Nat} {s t : SchedState}
    (hd : AllDone s) (hstep : Step game start G s t) : False := by
  cases hstep with
  | claim i hi hc => exact absurd (hd _ (List.get?_mem hi)) (by simp)
  | exhaust i hi hc => exact absurd (hd _ (List.get?_mem hi)) (by simp)
  | store i sd rr hi => exact absurd (hd _ (List.get?_mem hi)) (by simp)

theorem measure_decreases {game : Nat → GameResult} {start G n : Nat} {s t : SchedState}
    (hpre : start + G + 1 < u32Mod) (hInv : SchedInv start G n s)
    (hstep : Step game start G s t) :
    schedMeasure start G t < schedMeasure start G s := by
  have hGS : u32add G start = G + start := u32add_eq_of_lt (by omega)
  have hc1 : u32add s.cursor 1 = s.cursor + 1 :=
    u32add_eq_of_lt (by have := hInv.ub; omega)
  cases hstep with
  | claim i hi hc =>
    obtain ⟨l, r, hws, hlen, hset⟩ := set_decomp s.workers i WStatus.idle hi
    rw [hGS, hc1] at hc
    have hcur : s.cursor < start + G := by omega
    have hps : pendingSeeds s = l.filterMap pendingOf ++ r.filterMap pendingOf := by
      simp [pendingSeeds, hws, List.filterMap_append, List.filterMap_cons, pendingOf]
    have hpt : pendingSeeds
        { cursor := u32add s.cursor 1
          agg := s.agg
          workers := s.workers.set i (WStatus.hasResult s.cursor (game s.cursor))
          claimed := s.claimed ++ [s.cursor]
          recorded := s.recorded } =
        l.filterMap pendingOf ++ s.cursor :: r.filterMap pendingOf := by
      simp [pendingSeeds, hset, List.filterMap_append, List.filterMap_cons, pendingOf]
    have his : idleCount s = ((l.filter isIdle).length + 1) + (r.filter isIdle).length := by
      simp [idleCount, hws, List.filter_append, List.filter_cons, isIdle]
      omega
    have hit : idleCount
        { cursor := u32add s.cursor 1
          agg := s.agg
          workers := s.workers.set i (WStatus.hasResult s.cursor (game s.cursor))
          claimed := s.claimed ++ [s.cursor]
          recorded := s.recorded } =
        (l.filter isIdle).length + (r.filter isIdle).length := by
      simp [idleCount, hset, List.filter_append, List.filter_cons, isIdle]
    rw [schedMeasure, schedMeasure, hps, hpt, his, hit]
    show 2 * (start + G - u32add s.cursor 1) + 2 * _ + _ < _
    rw [hc1]
    simp only [List.length_append, List.length_cons]
    omega
  | exhaust i hi hc =>
    obtain ⟨l, r, hws, hlen, hset⟩ := set_decomp s.workers i WStatus.idle hi
    have hpend : pendingSeeds { s with workers := s.workers.set i WStatus.done } =
        pendingSeeds s := by
      show (s.workers.set i WStatus.done).filterMap pendingOf =
        s.workers.filterMap pendingOf
      rw [hset WStatus.done, hws]
      simp [List.filterMap_append, List.filterMap_cons, pendingOf]
    have his : idleCount s = ((l.filter isIdle).length + 1) + (r.filter isIdle).length := by
      simp [idleCount, hws, List.filter_append, List.filter_cons, isIdle]
      omega
    have hit : idleCount { s with workers := s.workers.set i WStatus.done } =
        (l.filter isIdle).length + (r.filter isIdle).length := by
      simp [idleCount, hset, List.filter_append, List.filter_cons, isIdle]
    rw [schedMeasure, schedMeasure, hpend, his, hit]
    dsimp only
    omega
  | store i sd rr hi =>
    obtain ⟨l, r, hws, hlen, hset⟩ := set_decomp s.workers i (WStatus.hasResult sd rr) hi
    have hps : pendingSeeds s =
        l.filterMap pendingOf ++ sd :: r.filterMap pendingOf := by
      simp [pendingSeeds, hws, List.filterMap_append, List.filterMap_cons, pendingOf]
    have hpt : pendingSeeds
        { cursor := s.cursor
          agg := record s.agg rr.winner rr.lose_reason sd
          workers := s.workers.set i WStatus.idle
          claimed := s.claimed
          recorded := s.recorded ++ [(rr.winner, rr.lose_reason, sd)] } =
        l.filterMap pendingOf ++ r.filterMap pendingOf := by
      simp [pendingSeeds, hset, List.filterMap_append, List.filterMap_cons, pendingOf]
    have his : idleCount s = (l.filter isIdle).length + (r.filter isIdle).length := by
      simp [idleCount, hws, List.filter_append, List.filter_cons, isIdle]
    have hit : idleCount
        { cursor := s.cursor
          agg := record s.agg rr.winner rr.lose_reason sd
          workers := s.workers.set i WStatus.idle
          claimed := s.claimed
          recorded := s.recorded ++ [(rr.winner, rr.lose_reason, sd)] } =
        ((l.filter isIdle).length + 1) + (r.filter isIdle).length := by
      simp [idleCount, hset, List.filter_append, List.filter_cons, isIdle]
      omega
    rw [schedMeasure, schedMeasure, hps, hpt, his, hit]
    dsimp only
    simp only [List.length_append, List.length_cons]
    omega

/-! ## C1: the tournament completes exactly G games

The claim as stated presupposes only that `start_seed + G` does not
overflow `u32` (`checked_add` succeeds).  At the boundary value
`start + G = 4294967295` the worker-loop comparison
`seed + 1 > games + seed` wraps (`seed + 1` overflows when the cursor
reaches `u32::MAX`), the exhaustion test fails, and the run claims seeds
beyond the requested range and never terminates.  Under the strengthened
precondition `start + G < 4294967295` the property holds. -/

theorem reach_cexC2 : Reachable cgame 4294967294 1 1 cexC2state := by
  have r0 : Reachable cgame 4294967294 1 1 (initState 1 4294967294) :=
    Relation.ReflTransGen.refl
  have r1 := Relation.ReflTransGen.tail r0
    (Step.claim (initState 1 4294967294) 0 rfl (by decide))
  have r2 := Relation.ReflTransGen.tail r1
    (Step.store _ 0 4294967294 (cgame 4294967294) rfl)
  have r3 := Relation.ReflTransGen.tail r2
    (Step.claim _ 0 rfl (by decide))
  exact r3

theorem reach_cexC1 : Reachable cgame 4294967294 1 1 cexC1state :=
  Relation.ReflTransGen.tail reach_cexC2
    (Step.store cexC2state 0 4294967295 (cgame 4294967295) rfl)

/-- C1 (counterexample to the claim as stated): with `start_seed =
4294967294` and `G = 1` the precondition of the claim holds
(`start_seed + G = u32::MAX` does not overflow), yet the single worker
reaches a state in which two games have been recorded and the win
counters sum to 2, not `G = 1` (and it goes on claiming forever: the run
never completes `G` games). -/
theorem C1_counterexample :
    4294967294 + 1 < u32Mod ∧
    Reachable cgame 4294967294 1 1 cexC1state ∧
    cexC1state.recorded.length = 2 ∧
    sumWins cexC1state.agg = 2 :=
  ⟨by norm_num [u32Mod], reach_cexC1, rfl, by decide⟩

/-- C1 (amended): for every thread count `n ≥ 1` and every game count
`G` with `start + G` strictly below `u32::MAX`, in every reachable state
where all workers have terminated the number of recorded games, the
number of claimed seeds and the sum of the win counters all equal `G`;
a reachable state has no successor exactly when all workers have
terminated; and every step strictly decreases a natural-number measure,
so every run terminates (completes exactly `G` games). -/
theorem C1_tournament_completes (game : Nat → GameResult) (start G n : Nat)
    (hn : 1 ≤ n) (hpre : start + G + 1 < u32Mod) :
    (∀ s, Reachable game start G n s → AllDone s →
        s.recorded.length = G ∧ s.claimed.length = G ∧ sumWins s.agg = G) ∧
    (∀ s, Reachable game start G n s →
        ((∀ t, ¬ Step game start G s t) ↔ AllDone s)) ∧
    (∀ s t, Reachable game start G n s → Step game start G s t →
        schedMeasure start G t < schedMeasure start G s) := by
  refine ⟨?_, ?_, ?_⟩
  · intro s hreach hdone
    have hInv := reachable_inv game start G n hpre s hreach
    have hlen : s.workers.length = n := hInv.wlen
    have hne : s.workers ≠ [] := by
      intro h0
      rw [h0] at hlen
      simp at hlen
      omega
    obtain ⟨w, hw⟩ := List.exists_mem_of_ne_nil s.workers hne
    have hcur : s.cursor = start + G := hInv.done_max ⟨w, hw, hdone w hw⟩
    have hclaimed : s.claimed = List.range' start G := by
      rw [hInv.claimed_eq, hcur]
      congr 1
      omega
    have hclen : s.claimed.length = G := by
      rw [hclaimed, List.length_range']
    have hpend : pendingSeeds s = [] := by
      rw [pendingSeeds, List.filterMap_eq_nil_iff]
      intro w2 hw2
      rw [hdone w2 hw2]
      rfl
    have hreclen : s.recorded.length = G := by
      have hp := hInv.perm
      rw [hpend, List.append_nil] at hp
      have hl := hp.length_eq
      rw [hclen, List.length_map] at hl
      omega
    refine ⟨hreclen, hclen, ?_⟩
    rw [hInv.agg_eq, sumWins_recordAll, hreclen]
  · intro s hreach
    constructor
    · intro hnostep
      by_contra hnd
      obtain ⟨t, ht⟩ := step_exists hnd
      exact hnostep t ht
    · intro hdone t hstep
      exact no_step_of_allDone hdone hstep
  · intro s t hreach hstep
    exact measure_decreases hpre (reachable_inv game start G n hpre s hreach) hstep

theorem reach_doneState : Reachable cgame 0 0 1 doneState :=
  Relation.ReflTransGen.single (Step.exhaust (initState 1 0) 0 rfl (by decide))

/-- C1 witness: the amended theorem evaluated on the run with one
worker, starting seed 0 and zero games: the terminated state records 0
games, 0 claims, and win counters summing to 0. -/
theorem C1_witness :
    1 ≤ 1 ∧ 0 + 0 + 1 < u32Mod ∧
    (doneState.recorded.length = 0 ∧ doneState.claimed.length = 0 ∧
      sumWins doneState.agg = 0) :=
  ⟨le_refl 1, by norm_num [u32Mod],
    (C1_tournament_completes cgame 0 0 1 (le_refl 1) (by norm_num [u32Mod])).1 doneState
      reach_doneState (fun w hw => List.eq_of_mem_singleton hw)⟩

/-! ## C2: the claimed seeds partition the requested range -/

/-- C2 (counterexample to the claim as stated): with `start_seed =
4294967294` and `G = 1` the precondition of the claim holds, yet the
worker reaches a state whose claimed-seed history is
`[4294967294, 4294967295]`: the seed `4294967295` lies outside the
requested range `[4294967294, 4294967295)`, so the claimed multiset is
not the range (and the cursor has wrapped from `4294967295` to 0,
breaking monotonicity from that state on). -/
theorem C2_counterexample :
    4294967294 + 1 < u32Mod ∧
    Reachable cgame 4294967294 1 1 cexC2state ∧
    cexC2state.claimed = [4294967294, 4294967295] ∧
    cexC2state.claimed ≠ List.range' 4294967294 1 :=
  ⟨by norm_num [u32Mod], reach_cexC2, rfl, by decide⟩

/-- C2 (amended): for every thread count `n ≥ 1` and every game count
`G` with `start + G` strictly below `u32::MAX`: in every reachable,
fully terminated state the claimed-seed history is exactly the list
`start, start+1, ..., start+G-1` in order (each seed claimed exactly
once, none skipped or duplicated); the claimed history never holds a
duplicate; and the shared cursor never decreases across a step. -/
theorem C2_claimed_partition (game : Nat → GameResult) (start G n : Nat)
    (hn : 1 ≤ n) (hpre : start + G + 1 < u32Mod) :
    (∀ s, Reachable game start G n s → AllDone s → s.claimed = List.range' start G) ∧
    (∀ s, Reachable game start G n s → s.claimed.Nodup) ∧
    (∀ s t, Reachable game start G n s → Step game start G s t → s.cursor ≤ t.cursor) := by
  refine ⟨?_, ?_, ?_⟩
  · intro s hreach hdone
    have hInv := reachable_inv game start G n hpre s hreach
    have hlen : s.workers.length = n := hInv.wlen
    have hne : s.workers ≠ [] := by
      intro h0
      rw [h0] at hlen
      simp at hlen
      omega
    obtain ⟨w, hw⟩ := List.exists_mem_of_ne_nil s.workers hne
    have hcur : s.cursor = start + G := hInv.done_max ⟨w, hw, hdone w hw⟩
    rw [hInv.claimed_eq, hcur]
    congr 1
    omega
  · intro s hreach
    rw [(reachable_inv game start G n hpre s hreach).claimed_eq]
    exact List.nodup_range' start (s.cursor - start)
  · intro s t hreach hstep
    have hInv := reachable_inv game start G n hpre s hreach
    have hc1 : u32add s.cursor 1 = s.cursor + 1 :=
      u32add_eq_of_lt (by have := hInv.ub; omega)
    cases hstep with
    | claim i hi hc =>
      show s.cursor ≤ u32add s.cursor 1
      rw [hc1]
      omega
    | exhaust i hi hc => exact le_refl s.cursor
    | store i sd rr hi => exact le_refl s.cursor

/-- C2 witness: the amended theorem evaluated on the run with one
worker, starting seed 0 and zero games: the terminated state has claimed
exactly the empty range. -/
theorem C2_witness :
    1 ≤ 1 ∧ 0 + 0 + 1 < u32Mod ∧ doneState.claimed = List.range' 0 0 :=
  ⟨le_refl 1, by norm_num [u32Mod],
    (C2_claimed_partition cgame 0 0 1 (le_refl 1) (by norm_num [u32Mod])).1 doneState
      reach_doneState (fun w hw => List.eq_of_mem_singleton hw)⟩

/-! ## C5: the seed-range overflow check only warns -/

theorem reach_cexC5 : Reachable cgame 4294967295 2 1 cexC5state := by
  have r0 : Reachable cgame 4294967295 2 1 (initState 1 4294967295) :=
    Relation.ReflTransGen.refl
  have r1 := Relation.ReflTransGen.tail r0
    (Step.claim (initState 1 4294967295) 0 rfl (by decide))
  have r2 := Relation.ReflTransGen.tail r1
    (Step.store _ 0 4294967295 (cgame 4294967295) rfl)
  have r3 := Relation.ReflTransGen.tail r2
    (Step.claim _ 0 rfl (by decide))
  have r4 := Relation.ReflTransGen.tail r3
    (Step.store _ 0 0 (cgame 0) rfl)
  have r5 := Relation.ReflTransGen.tail r4
    (Step.exhaust _ 0 rfl (by decide))
  exact r5

/-- C5: with `games = 2` and `start_seed = 4294967295` the configured
seed range overflows `u32`.  The pre-spawn check detects it (the warning
is printed) but `main` does not abort: the spawn loop still runs, and
the tournament executes both games with wrapped seed values 4294967295
and 0 before terminating.  The claim says the run must abort with a
configuration error before any worker is spawned. -/
theorem C5_overflow_only_warns :
    (preSpawn 2 4294967295).warned = true ∧
    (preSpawn 2 4294967295).spawns = true ∧
    Reachable cgame 4294967295 2 1 cexC5state ∧
    AllDone cexC5state ∧
    cexC5state.claimed = [4294967295, 0] :=
  ⟨by decide, rfl, reach_cexC5, fun w hw => List.eq_of_mem_singleton hw, rfl⟩

/-! ## C9: the locking structure of the worker loop

The source has a single `Arc<Mutex<State>>` (main.rs line 62) guarding
both the seed cursor and the aggregate; the claim asserts two
independent mutual-exclusion domains.  The lock-explicit model shows the
consequence: under the single mutex, one worker inside the seed-claim
critical section excludes every other worker from the record critical
section, a behaviour the spec-modelled two-lock design does not have. -/

theorem lock_inv_step {start G n : Nat} {s t : LockState}
    (ih : ∀ i, InCS s i ↔ s.owner = some i) (hstep : LStep start G n s t) :
    ∀ i, InCS t i ↔ t.owner = some i := by
  cases hstep with
  | enterClaim i0 hn hi ho =>
    intro j
    by_cases hji : j = i0
    · subst hji
      constructor
      · intro _
        rfl
      · intro _
        exact Or.inl (Function.update_same j Phase.claiming s.phases)
    · have hpj : Function.update s.phases i0 Phase.claiming j = s.phases j :=
        Function.update_noteq hji Phase.claiming s.phases
      constructor
      · intro hcs
        exfalso
        have hmem : InCS s j := by
          rcases hcs with h1 | ⟨sd2, h1⟩
          · dsimp only at h1
            rw [hpj] at h1
            exact Or.inl h1
          · dsimp only at h1
            rw [hpj] at h1
            exact Or.inr ⟨sd2, h1⟩
        have hoj := (ih j).mp hmem
        rw [ho] at hoj
        exact Option.noConfusion hoj
      · intro hoj
        exact absurd (Option.some.inj hoj).symm hji
  | claimSeed i0 hn hi ho hc =>
    intro j
    constructor
    · intro hcs
      exfalso
      by_cases hji : j = i0
      · subst hji
        rcases hcs with h1 | ⟨sd2, h1⟩ <;> dsimp only at h1 <;>
          rw [Function.update_same j (Phase.playing s.cursor) s.phases] at h1 <;>
          exact Phase.noConfusion h1
      · have hpj : Function.update s.phases i0 (Phase.playing s.cursor) j = s.phases j :=
          Function.update_noteq hji _ s.phases
        have hmem : InCS s j := by
          rcases hcs with h1 | ⟨sd2, h1⟩
          · dsimp only at h1
            rw [hpj] at h1
            exact Or.inl h1
          · dsimp only at h1
            rw [hpj] at h1
            exact Or.inr ⟨sd2, h1⟩
        have hoj := (ih j).mp hmem
        rw [ho] at hoj
        exact hji (Option.some.inj hoj).symm
    · intro hoj
      exact Option.noConfusion hoj
  | claimExhausted i0 hn hi ho hc =>
    intro j
    constructor
    · intro hcs
      exfalso
      by_cases hji : j = i0
      · subst hji
        rcases hcs with h1 | ⟨sd2, h1⟩ <;> dsimp only at h1 <;>
          rw [Function.update_same j Phase.finished s.phases] at h1 <;>
          exact Phase.noConfusion h1
      · have hpj : Function.update s.phases i0 Phase.finished j = s.phases j :=
          Function.update_noteq hji _ s.phases
        have hmem : InCS s j := by
          rcases hcs with h1 | ⟨sd2, h1⟩
          · dsimp only at h1
            rw [hpj] at h1
            exact Or.inl h1
          · dsimp only at h1
            rw [hpj] at h1
            exact Or.inr ⟨sd2, h1⟩
        have hoj := (ih j).mp hmem
        rw [ho] at hoj
        exact hji (Option.some.inj hoj).symm
    · intro hoj
      exact Option.noConfusion hoj
  | enterRecord i0 sd hn hi ho =>
    intro j
    by_cases hji : j = i0
    · subst hji
      constructor
      · intro _
        rfl
      · intro _
        exact Or.inr ⟨sd, Function.update_same j (Phase.recording sd) s.phases⟩
    · have hpj : Function.update s.phases i0 (Phase.recording sd) j = s.phases j :=
        Function.update_noteq hji _ s.phases
      constructor
      · intro hcs
        exfalso
        have hmem : InCS s j := by
          rcases hcs with h1 | ⟨sd2, h1⟩
          · dsimp only at h1
            rw [hpj] at h1
            exact Or.inl h1
          · dsimp only at h1
            rw [hpj] at h1
            exact Or.inr ⟨sd2, h1⟩
        have hoj := (ih j).mp hmem
        rw [ho] at hoj
        exact Option.noConfusion hoj
      · intro hoj
        exact absurd (Option.some.inj hoj).symm hji
  | exitRecord i0 sd hn hi ho =>
    intro j
    constructor
    · intro hcs
      exfalso
      by_cases hji : j = i0
      · subst hji
        rcases hcs with h1 | ⟨sd2, h1⟩ <;> dsimp only at h1 <;>
          rw [Function.update_same j Phase.ready s.phases] at h1 <;>
          exact Phase.noConfusion h1
      · have hpj : Function.update s.phases i0 Phase.ready j = s.phases j :=
          Function.update_noteq hji _ s.phases
        have hmem : InCS s j := by
          rcases hcs with h1 | ⟨sd2, h1⟩
          · dsimp only at h1
            rw [hpj] at h1
            exact Or.inl h1
          · dsimp only at h1
            rw [hpj] at h1
            exact Or.inr ⟨sd2, h1⟩
        have hoj := (ih j).mp hmem
        rw [ho] at hoj
        exact hji (Option.some.inj hoj).symm
    · intro hoj
      exact Option.noConfusion hoj

theorem lock_inv (start G n : Nat) (s : LockState) (h : ReachableL start G n s) :
    ∀ i, InCS s i ↔ s.owner = some i := by
  induction h with
  | refl =>
    intro i
    constructor
    · rintro (h1 | ⟨sd, h1⟩) <;> exact Phase.noConfusion h1
    · intro h1
      exact Option.noConfusion h1
  | tail hab hstep ih => exact lock_inv_step ih hstep

/-- C9 (counterexample to the claim as stated): the two-independent-lock
design modelled from the spec reaches a state in which worker 0 is
inside the seed-claim critical section while worker 1 is inside the
record critical section; under the source, where one `Mutex<State>`
guards both the cursor and the aggregate, no such state is reachable:
the two critical sections are not independent mutual-exclusion domains
but sections of the same single lock. -/
theorem C9_counterexample :
    (∃ s : TwoLockState, ReachableS 0 2 2 s ∧ s.phases 0 = Phase.claiming ∧
        s.phases 1 = Phase.recording 0) ∧
    ¬ (∃ s : LockState, ReachableL 0 2 2 s ∧ s.phases 0 = Phase.claiming ∧
        s.phases 1 = Phase.recording 0) := by
  constructor
  · have r0 : ReachableS 0 2 2 (initTwoLock 0) := Relation.ReflTransGen.refl
    have r1 := Relation.ReflTransGen.tail r0
      (SStep.enterClaim (initTwoLock 0) 1 (by omega) rfl rfl)
    have r2 := Relation.ReflTransGen.tail r1
      (SStep.claimSeed _ 1 (by omega) (by simp [initTwoLock, Function.update]) rfl (by decide))
    have r3 := Relation.ReflTransGen.tail r2
      (SStep.enterRecord _ 1 0 (by omega) (by simp [initTwoLock, Function.update]) rfl)
    have r4 := Relation.ReflTransGen.tail r3
      (SStep.enterClaim _ 0 (by omega) (by simp [initTwoLock, Function.update]) rfl)
    exact ⟨_, r4, by simp [initTwoLock, Function.update],
      by simp [initTwoLock, Function.update]⟩
  · rintro ⟨s, hreach, h0, h1⟩
    have hown0 := (lock_inv 0 2 2 s hreach 0).mp (Or.inl h0)
    have hown1 := (lock_inv 0 2 2 s hreach 1).mp (Or.inr ⟨0, h1⟩)
    rw [hown0] at hown1
    exact absurd (Option.some.inj hown1) (by decide)

/-- C9 (amended): the source guards both the seed cursor and the
aggregate with the one mutex `seed_mutex`.  Seed claiming and result
recording are two disjoint critical sections of that single lock: no two
distinct workers can be inside critical sections simultaneously (in
particular a claim and a record never overlap, and no nested or double
acquisition exists), and between the two critical sections (while a
worker plays its game) the lock is not held by that worker. -/
theorem C9_single_mutex (start G n : Nat) :
    (∀ s, ReachableL start G n s → ∀ i j, InCS s i → InCS s j → i = j) ∧
    (∀ s, ReachableL start G n s → ∀ i sd, s.phases i = Phase.playing sd →
        s.owner ≠ some i) := by
  constructor
  · intro s h i j hi hj
    have h1 := (lock_inv start G n s h i).mp hi
    have h2 := (lock_inv start G n s h j).mp hj
    rw [h1] at h2
    exact Option.some.inj h2
  · intro s h i sd hp ho
    have hcs := (lock_inv start G n s h i).mpr ho
    rcases hcs with h1 | ⟨sd2, h1⟩ <;> rw [hp] at h1 <;> exact Phase.noConfusion h1

theorem reach_lockCS0 : ReachableL 0 2 2 lockCS0 :=
  Relation.ReflTransGen.single (LStep.enterClaim (initLock 0) 0 (by omega) rfl rfl)

theorem reach_lockPlay0 : ReachableL 0 2 2 lockPlay0 :=
  Relation.ReflTransGen.tail reach_lockCS0
    (LStep.claimSeed lockCS0 0 (by omega) (by simp [lockCS0, initLock, Function.update]) rfl
      (by decide))

/-- C9 witness: the amended theorem evaluated on the concrete reachable
state in which worker 0 has claimed seed 0 and is playing: the worker in
the claim critical section owns the lock, and while playing the lock is
released. -/
theorem C9_witness :
    InCS lockCS0 0 ∧
    lockPlay0.phases 0 = Phase.playing 0 ∧
    lockPlay0.owner ≠ some 0 :=
  ⟨Or.inl (by simp [lockCS0, initLock, Function.update]),
    by simp [lockPlay0, initLock, Function.update],
    (C9_single_mutex 0 2 2).2 lockPlay0 reach_lockPlay0 0 0
      (by simp [lockPlay0, initLock, Function.update])⟩
